import Mathlib

/-!
Verification of the IC Source export-upload scripts.

This file gives a shallow embedding of `scripts/export-and-upload-icsource.mjs`
and its two sibling variants. JavaScript numbers are modelled as exact
rationals (`ℚ`); integer-valued results (adjusted quantities, sizes, ids) are
modelled as `Int`/`Nat`; JavaScript `null`/`undefined` is modelled with
`Option`; thrown exceptions are modelled with `Except String`.

Naming convention for the three script variants:
  * variant A: `exportCsvNoAggregation` / `uploadToIcSource` / `insertLog`
    and its IIFE (first script in `src/scripts/export-and-upload-icsource.mjs`);
  * variant B: `adjustQty80` / `exportToCsvStream` / `uploadViaFtp` /
    `writeLogMinimal` and its IIFE (second script in the same file);
  * variant C: `exportToCSV` / `uploadToICSource` / `writeLog` and its IIFE
    (first script in `src/unnamed/part_001`).
-/

namespace ICSourceExport

/-- One row of the `excess_parts` table, as selected by the export queries:
`id` is the strictly increasing integer primary key used for cursor paging,
`part_number` and `vendor` are text columns (a database `null` is modelled as
`""`, matching the scripts' `(row.part_number || '').trim()` coercions), and
`quantity` is a numeric column (a `null`/non-numeric value is modelled as `0`,
matching `Number(q || 0)` / `toNumber(row.quantity, 0)`). -/
structure SourceRecord where
  id : Int
  part_number : String
  quantity : ℚ
  vendor : String
  deriving DecidableEq, Repr

/-- JavaScript `String.prototype.trim`: strip leading and trailing whitespace.
Implemented by structural recursion over the character list so that concrete
instances evaluate inside the kernel. -/
def jsTrim (s : String) : String :=
  ⟨((s.data.dropWhile Char.isWhitespace).reverse.dropWhile Char.isWhitespace).reverse⟩

/-- JavaScript `String.prototype.slice(0, 200)`, used by variant A for the
audit note field. -/
def jsSlice200 (s : String) : String := ⟨s.data.take 200⟩

/-- JavaScript `Math.round` on an exact rational: round to nearest integer,
halves toward positive infinity, i.e. `⌊x + 1/2⌋`. -/
def jsRound (x : ℚ) : ℤ := ⌊x + 1/2⌋

/-- Modelled from the spec: the rounding mode the spec claims for the quantity
rule, round to nearest integer with halves away from zero. Used only to compare
the spec's wording with the code's `Math.round`. -/
def roundHalfAwayFromZero (x : ℚ) : ℤ :=
  if 0 ≤ x then ⌊x + 1/2⌋ else -⌊-x + 1/2⌋

/-- Variant B `adjustQty80`:
`const v = Math.round(Number(q || 0) * 0.8); return v > 0 ? v : 0;`. -/
def adjustQty80 (q : ℚ) : ℤ :=
  let v := jsRound (q * (4/5))
  if 0 < v then v else 0

/-- The per-row transformation inside variant C `exportToCSV`: trim the part
number and vendor, adjust the quantity by the configured ratio with
`Math.round`, and reject the row (`continue`) when the trimmed part number is
empty or the adjusted quantity is not positive. `some (mpn, adjQty, vendor)`
is the row passed to `csv.write`. -/
def exportToCSVRow (ratio : ℚ) (r : SourceRecord) : Option (String × ℤ × String) :=
  let mpn := jsTrim r.part_number
  let vendor := jsTrim r.vendor
  let adjQty := jsRound (r.quantity * ratio)
  if mpn = "" ∨ adjQty ≤ 0 then none else some (mpn, adjQty, vendor)

/-- Evaluation rule for `jsRound` at concrete rationals. -/
theorem jsRound_eq_of {x : ℚ} {n : ℤ} (h1 : (n : ℚ) ≤ x + 1/2) (h2 : x + 1/2 < n + 1) :
    jsRound x = n := by
  unfold jsRound
  exact Int.floor_eq_iff.mpr ⟨h1, h2⟩

example : adjustQty80 10 = 8 := by
  have h : jsRound ((10 : ℚ) * (4/5)) = 8 := jsRound_eq_of (by norm_num) (by norm_num)
  simp only [adjustQty80, h]
  norm_num

example : adjustQty80 3 = 2 := by
  have h : jsRound ((3 : ℚ) * (4/5)) = 2 := jsRound_eq_of (by norm_num) (by norm_num)
  simp only [adjustQty80, h]
  norm_num

example : adjustQty80 (-5) = 0 := by
  have h : jsRound ((-5 : ℚ) * (4/5)) = -4 := jsRound_eq_of (by norm_num) (by norm_num)
  simp only [adjustQty80, h]
  norm_num

/-- The clamp `v > 0 ? v : 0` is `max 0 v`. -/
theorem ite_pos_eq_max (v : ℤ) : (if 0 < v then v else 0) = max 0 v := by
  by_cases h : 0 < v
  · simp [h, max_eq_right h.le]
  · simp [h, max_eq_left (le_of_not_lt h)]

/-- Clamped to zero from below, JavaScript `Math.round` (halves toward plus
infinity) and the spec's round-half-away-from-zero agree on every rational:
the two modes only differ at negative half-integers, where both sides are
nonpositive and hence clamped away. -/
theorem max_jsRound_eq_max_roundHalfAway (x : ℚ) :
    max 0 (jsRound x) = max 0 (roundHalfAwayFromZero x) := by
  unfold roundHalfAwayFromZero
  by_cases h : 0 ≤ x
  · simp [h, jsRound]
  · push_neg at h
    have hl : jsRound x ≤ 0 := by
      have hx : x + 1/2 < ((1 : ℤ) : ℚ) := by push_cast; linarith
      have := Int.floor_lt.mpr hx
      unfold jsRound
      omega
    have hr : -⌊-x + 1/2⌋ ≤ 0 := by
      have hx : ((0 : ℤ) : ℚ) ≤ -x + 1/2 := by push_cast; linarith
      have := Int.le_floor.mpr hx
      omega
    rw [if_neg (not_le.mpr h), max_eq_left hl, max_eq_left hr]

/-- Claim C1: for every raw quantity `q`, variant B's `adjustQty80` computes
`max(0, round(q × 0.8))` with rounding to the nearest integer, half away from
zero; the quantity actually written by variant C's `exportToCSV` for an
accepted row equals `max(0, round(q × ratio))` for the configured ratio; and
the concrete values `adjusted(0) = 0`, `adjusted(-5) = 0`, `adjusted(10) = 8`,
`adjusted(3) = 2` hold. -/
theorem C1_quantity_rule :
    (∀ q : ℚ, adjustQty80 q = max 0 (roundHalfAwayFromZero (q * (4/5)))) ∧
    (∀ (ratio : ℚ) (r : SourceRecord) (mpn : String) (adj : ℤ) (vendor : String),
        exportToCSVRow ratio r = some (mpn, adj, vendor) →
        adj = max 0 (roundHalfAwayFromZero (r.quantity * ratio))) ∧
    adjustQty80 0 = 0 ∧ adjustQty80 (-5) = 0 ∧ adjustQty80 10 = 8 ∧ adjustQty80 3 = 2 := by
  have hmain : ∀ q : ℚ, adjustQty80 q = max 0 (roundHalfAwayFromZero (q * (4/5))) := by
    intro q
    unfold adjustQty80
    rw [ite_pos_eq_max, max_jsRound_eq_max_roundHalfAway]
  refine ⟨hmain, ?_, ?_, ?_, ?_, ?_⟩
  · intro ratio r mpn adj vendor h
    unfold exportToCSVRow at h
    by_cases hc : jsTrim r.part_number = "" ∨ jsRound (r.quantity * ratio) ≤ 0
    · simp [hc] at h
    · simp only [if_neg hc, Option.some.injEq, Prod.mk.injEq] at h
      push_neg at hc
      have hpos : 0 < jsRound (r.quantity * ratio) := hc.2
      rw [← h.2.1, ← max_jsRound_eq_max_roundHalfAway]
      exact (max_eq_right hpos.le).symm
  · have h : jsRound ((0 : ℚ) * (4/5)) = 0 := jsRound_eq_of (by norm_num) (by norm_num)
    simp only [adjustQty80, h]
    norm_num
  · have h : jsRound ((-5 : ℚ) * (4/5)) = -4 := jsRound_eq_of (by norm_num) (by norm_num)
    simp only [adjustQty80, h]
    norm_num
  · have h : jsRound ((10 : ℚ) * (4/5)) = 8 := jsRound_eq_of (by norm_num) (by norm_num)
    simp only [adjustQty80, h]
    norm_num
  · have h : jsRound ((3 : ℚ) * (4/5)) = 2 := jsRound_eq_of (by norm_num) (by norm_num)
    simp only [adjustQty80, h]
    norm_num

/-- Witness for C1: at the record `{id := 3, part_number := "B2", quantity := 1,
vendor := ""}` with ratio `0.8`, `exportToCSVRow` accepts the row with adjusted
quantity `1`, and the theorem yields `1 = max 0 (round(1 × 0.8))`. -/
theorem C1_quantity_rule_witness :
    (1 : ℤ) = max 0 (roundHalfAwayFromZero ((1 : ℚ) * (4/5))) := by
  have heval : exportToCSVRow (4/5) ⟨3, "B2", 1, ""⟩ = some ("B2", 1, "") := by
    have h : jsRound ((1 : ℚ) * (4/5)) = 1 := jsRound_eq_of (by norm_num) (by norm_num)
    simp only [exportToCSVRow, h]
    decide
  exact C1_quantity_rule.2.1 (4/5) ⟨3, "B2", 1, ""⟩ "B2" 1 "" heval

/-- Accumulator state of variant B `exportToCsvStream`: `written` is the list
of `[mpn, adj]` rows passed to `csv.write`, and `lineCount`, `totalQty`,
`skuSet` are the running statistics. -/
structure StreamState where
  written : List (String × ℤ)
  lineCount : ℕ
  totalQty : ℤ
  skuSet : Finset String
  deriving DecidableEq

/-- Initial accumulator of `exportToCsvStream`. -/
def streamInit : StreamState := ⟨[], 0, 0, ∅⟩

/-- The body of `for (const row of data)` in variant B `exportToCsvStream`:
skip the row when the trimmed part number is empty (`if (!mpn) continue`) or
when `adjustQty80` is not positive (`if (adj <= 0) continue`); otherwise write
`[mpn, adj]` and update the statistics. -/
def exportToCsvStreamStep (st : StreamState) (row : SourceRecord) : StreamState :=
  let mpn := jsTrim row.part_number
  if mpn = "" then st
  else
    let adj := adjustQty80 row.quantity
    if adj ≤ 0 then st
    else
      { written := st.written ++ [(mpn, adj)],
        lineCount := st.lineCount + 1,
        totalQty := st.totalQty + adj,
        skuSet := insert mpn st.skuSet }

/-- Variant B `exportToCsvStream` restricted to its per-row processing: fold
the loop body over the concatenation of all fetched pages. -/
def exportToCsvStreamFold (rows : List SourceRecord) : StreamState :=
  rows.foldl exportToCsvStreamStep streamInit

/-- Accumulator state of variant A `exportCsvNoAggregation`: every fetched row
is pushed (no filtering, no quantity adjustment), `seenSku` collects truthy
raw part numbers, `totalQty` sums raw quantities. -/
structure NoAggState where
  rows : List (String × ℚ × String)
  seenSku : Finset String
  totalQty : ℚ
  deriving DecidableEq

/-- Initial accumulator of `exportCsvNoAggregation`. -/
def noAggInit : NoAggState := ⟨[], ∅, 0⟩

/-- The body of `for (const r of data)` in variant A `exportCsvNoAggregation`:
`rows.push({mpn, qty, vendor})` unconditionally, `seenSku.add` when the raw
part number is truthy, `totalQty += Number(r.quantity || 0)`. -/
def exportCsvNoAggregationStep (st : NoAggState) (r : SourceRecord) : NoAggState :=
  { rows := st.rows ++ [(jsTrim r.part_number, r.quantity, jsTrim r.vendor)],
    seenSku := if r.part_number = "" then st.seenSku else insert r.part_number st.seenSku,
    totalQty := st.totalQty + r.quantity }

/-- Variant A `exportCsvNoAggregation` restricted to its per-row processing. -/
def exportCsvNoAggregationFold (rows : List SourceRecord) : NoAggState :=
  rows.foldl exportCsvNoAggregationStep noAggInit

/-- Accumulator state of variant C `exportToCSV`. -/
structure CSVState where
  written : List (String × ℤ × String)
  totalLines : ℕ
  totalQty : ℤ
  distinct : Finset String
  deriving DecidableEq

/-- Initial accumulator of `exportToCSV`. -/
def csvInit : CSVState := ⟨[], 0, 0, ∅⟩

/-- The body of `for (const row of data)` in variant C `exportToCSV`, with the
accept/reject decision factored through `exportToCSVRow`. -/
def exportToCSVStep (ratio : ℚ) (st : CSVState) (r : SourceRecord) : CSVState :=
  match exportToCSVRow ratio r with
  | none => st
  | some (mpn, adjQty, vendor) =>
      { written := st.written ++ [(mpn, adjQty, vendor)],
        totalLines := st.totalLines + 1,
        totalQty := st.totalQty + adjQty,
        distinct := insert mpn st.distinct }

/-- Variant C `exportToCSV` restricted to its per-row processing. -/
def exportToCSVFold (ratio : ℚ) (rows : List SourceRecord) : CSVState :=
  rows.foldl (exportToCSVStep ratio) csvInit

/-- The per-row accept decision of variant B `exportToCsvStream`, as an
optional output row: `none` exactly when the loop body hits a `continue`. -/
def exportToCsvStreamRow (r : SourceRecord) : Option (String × ℤ) :=
  let mpn := jsTrim r.part_number
  if mpn = "" then none
  else
    let adj := adjustQty80 r.quantity
    if adj ≤ 0 then none else some (mpn, adj)

/-- The artifact produced by variant B: `stringify({ header: false })` piped to
the output file, i.e. one two-field line per written record and no header row.
A line is modelled as its list of fields. -/
def artifactStream (written : List (String × ℤ)) : List (List String) :=
  written.map fun p => [p.1, toString p.2]

/-- The artifact produced by variant C: `stringify({ header: true, columns:
['part_number', 'quantity', 'vendor'] })`, i.e. a three-column header line
followed by one three-field line per written record. -/
def artifactExportToCSV (written : List (String × ℤ × String)) : List (List String) :=
  ["part_number", "quantity", "vendor"] :: written.map fun p => [p.1, toString p.2.1, p.2.2]

/-- Claim C4: a source record whose part number is empty after trimming, or
whose adjusted quantity is not positive, is skipped by the loop body of both
variant B `exportToCsvStream` and variant C `exportToCSV`: the accumulator
(written rows and every statistic) is left exactly unchanged, so the record
appears neither in the artifact nor in any RunStats count. -/
theorem C4_rejected_record_leaves_no_trace (st : StreamState) (stC : CSVState)
    (ratio : ℚ) (r : SourceRecord) :
    ((jsTrim r.part_number = "" ∨ adjustQty80 r.quantity ≤ 0) →
        exportToCsvStreamStep st r = st) ∧
    ((jsTrim r.part_number = "" ∨ jsRound (r.quantity * ratio) ≤ 0) →
        exportToCSVStep ratio stC r = stC) := by
  constructor
  · intro h
    unfold exportToCsvStreamStep
    rcases h with h | h
    · simp [h]
    · by_cases hm : jsTrim r.part_number = ""
      · simp [hm]
      · simp [hm, h]
  · intro h
    unfold exportToCSVStep exportToCSVRow
    simp [h]

/-- Witness for C4: the record `{id := 2, part_number := " ", quantity := 5}`
(empty part number after trimming) leaves both accumulators untouched. -/
theorem C4_rejected_record_leaves_no_trace_witness :
    exportToCsvStreamStep streamInit ⟨2, " ", 5, ""⟩ = streamInit ∧
    exportToCSVStep (4/5) csvInit ⟨2, " ", 5, ""⟩ = csvInit :=
  ⟨(C4_rejected_record_leaves_no_trace streamInit csvInit (4/5) ⟨2, " ", 5, ""⟩).1
      (Or.inl rfl),
   (C4_rejected_record_leaves_no_trace streamInit csvInit (4/5) ⟨2, " ", 5, ""⟩).2
      (Or.inl rfl)⟩

/-- The loop body of `exportToCsvStream` factors through the accept decision
`exportToCsvStreamRow`. -/
theorem exportToCsvStreamStep_eq (st : StreamState) (r : SourceRecord) :
    exportToCsvStreamStep st r =
      match exportToCsvStreamRow r with
      | none => st
      | some p =>
          { written := st.written ++ [p],
            lineCount := st.lineCount + 1,
            totalQty := st.totalQty + p.2,
            skuSet := insert p.1 st.skuSet } := by
  unfold exportToCsvStreamStep exportToCsvStreamRow
  by_cases hm : jsTrim r.part_number = ""
  · simp [hm]
  · by_cases ha : adjustQty80 r.quantity ≤ 0
    · simp [hm, ha]
    · simp [hm, ha]

/-- The rows written by the `exportToCsvStream` loop are exactly the accepted
rows, in order. -/
theorem streamFold_written (rows : List SourceRecord) :
    ∀ st : StreamState,
      (rows.foldl exportToCsvStreamStep st).written
        = st.written ++ rows.filterMap exportToCsvStreamRow := by
  induction rows with
  | nil => intro st; simp
  | cons r rest ih =>
      intro st
      rw [List.foldl_cons, ih, List.filterMap_cons, exportToCsvStreamStep_eq]
      cases h : exportToCsvStreamRow r with
      | none => simp
      | some p => simp

/-- The rows written by the `exportToCSV` loop are exactly the accepted rows,
in order. -/
theorem csvFold_written (ratio : ℚ) (rows : List SourceRecord) :
    ∀ st : CSVState,
      (rows.foldl (exportToCSVStep ratio) st).written
        = st.written ++ rows.filterMap (exportToCSVRow ratio) := by
  induction rows with
  | nil => intro st; simp
  | cons r rest ih =>
      intro st
      rw [List.foldl_cons, ih, List.filterMap_cons]
      unfold exportToCSVStep
      cases h : exportToCSVRow ratio r with
      | none => simp
      | some p => obtain ⟨mpn, adj, vendor⟩ := p; simp

/-- The RunStats invariant of `exportToCsvStream`. -/
def streamInv (st : StreamState) : Prop :=
  st.lineCount = st.written.length ∧
  st.skuSet.card ≤ st.lineCount ∧
  st.totalQty = (st.written.map Prod.snd).sum

/-- One loop iteration of `exportToCsvStream` preserves the RunStats
invariant. -/
theorem streamInv_step {st : StreamState} (h : streamInv st) (r : SourceRecord) :
    streamInv (exportToCsvStreamStep st r) := by
  obtain ⟨h1, h2, h3⟩ := h
  rw [exportToCsvStreamStep_eq]
  cases hr : exportToCsvStreamRow r with
  | none => exact ⟨h1, h2, h3⟩
  | some p =>
      dsimp only
      refine ⟨?_, ?_, ?_⟩
      · simp [h1]
      · show (insert p.1 st.skuSet).card ≤ st.lineCount + 1
        exact le_trans (Finset.card_insert_le _ _) (by omega)
      · simp [h3]

/-- The RunStats invariant holds after folding the loop body over any row
sequence from any state satisfying it. -/
theorem streamInv_fold (rows : List SourceRecord) :
    ∀ st : StreamState, streamInv st → streamInv (rows.foldl exportToCsvStreamStep st) := by
  induction rows with
  | nil => intro st h; exact h
  | cons r rest ih => intro st h; exact ih _ (streamInv_step h r)

/-- The RunStats invariant of variant A `exportCsvNoAggregation`: in that
variant every fetched row is written, `lineCount` is `rows.length`, and the
raw quantities are summed. -/
def noAggInv (st : NoAggState) : Prop :=
  st.seenSku.card ≤ st.rows.length ∧
  st.totalQty = (st.rows.map fun p => p.2.1).sum

/-- One loop iteration of `exportCsvNoAggregation` preserves its invariant. -/
theorem noAggInv_step {st : NoAggState} (h : noAggInv st) (r : SourceRecord) :
    noAggInv (exportCsvNoAggregationStep st r) := by
  obtain ⟨h1, h2⟩ := h
  unfold exportCsvNoAggregationStep
  constructor
  · by_cases hp : r.part_number = ""
    · simp only [hp, if_pos]
      simp
      omega
    · simp only [hp, if_neg, ite_false]
      calc (insert r.part_number st.seenSku).card
          ≤ st.seenSku.card + 1 := Finset.card_insert_le _ _
        _ ≤ st.rows.length + 1 := by omega
        _ = (st.rows ++ [(jsTrim r.part_number, r.quantity, jsTrim r.vendor)]).length := by simp
  · simp [h2]

/-- The variant A invariant holds after folding from any state satisfying
it. -/
theorem noAggInv_fold (rows : List SourceRecord) :
    ∀ st : NoAggState, noAggInv st → noAggInv (rows.foldl exportCsvNoAggregationStep st) := by
  induction rows with
  | nil => intro st h; exact h
  | cons r rest ih => intro st h; exact ih _ (noAggInv_step h r)

/-- Claim C8: after the export loop finishes, the RunStats of
`exportToCsvStream` satisfy `lineCount = number of data lines in the
artifact`, `distinct key count ≤ lineCount`, and `totalQuantity = sum of the
written quantities`; the corresponding invariant also holds for variant A
`exportCsvNoAggregation` (where every fetched row is a data line). -/
theorem C8_stats_consistency (rows : List SourceRecord) :
    ((exportToCsvStreamFold rows).lineCount
        = (artifactStream (exportToCsvStreamFold rows).written).length ∧
      (exportToCsvStreamFold rows).skuSet.card ≤ (exportToCsvStreamFold rows).lineCount ∧
      (exportToCsvStreamFold rows).totalQty
        = ((exportToCsvStreamFold rows).written.map Prod.snd).sum) ∧
    ((exportCsvNoAggregationFold rows).seenSku.card
        ≤ (exportCsvNoAggregationFold rows).rows.length ∧
      (exportCsvNoAggregationFold rows).totalQty
        = ((exportCsvNoAggregationFold rows).rows.map fun p => p.2.1).sum) := by
  have hB : streamInv (exportToCsvStreamFold rows) :=
    streamInv_fold rows streamInit ⟨rfl, by simp [streamInit], rfl⟩
  have hA : noAggInv (exportCsvNoAggregationFold rows) :=
    noAggInv_fold rows noAggInit ⟨by simp [noAggInit], rfl⟩
  obtain ⟨h1, h2, h3⟩ := hB
  refine ⟨⟨?_, h2, h3⟩, hA⟩
  unfold artifactStream
  simp [h1]

/-- Counterexample to claim C7: the claim says the serialized artifact always
begins with the two-column header row, and that a zero-record run finalizes to
a header-only file. In variant B (`stringify({ header: false })`) the
zero-record artifact is the empty file with no header row at all, and in
variant C the header has three columns (`part_number,quantity,vendor`), not
two. -/
theorem C7_header_counterexample :
    artifactStream [] = [] ∧
    ([] : List (List String)) ≠ [["partNumber", "quantity"]] ∧
    (artifactExportToCSV []).head? = some ["part_number", "quantity", "vendor"] ∧
    ["part_number", "quantity", "vendor"].length ≠ 2 := by
  refine ⟨rfl, ?_, rfl, ?_⟩ <;> decide

/-- Claim C7 as amended: variant B's artifact has no header row — it is
exactly one two-field line per accepted record, in acceptance order, with
repeated part numbers kept as separate lines (the written rows are a
`filterMap` of the input, which preserves order and duplicates), and a
zero-record run finalizes to an empty file; variant C's artifact begins with
the three-column header `part_number,quantity,vendor` followed by one line per
accepted record. -/
theorem C7_artifact_shape_amended (ratio : ℚ) (rows : List SourceRecord) :
    (exportToCsvStreamFold rows).written = rows.filterMap exportToCsvStreamRow ∧
    artifactStream (exportToCsvStreamFold rows).written
      = (rows.filterMap exportToCsvStreamRow).map (fun p => [p.1, toString p.2]) ∧
    (rows.filterMap exportToCsvStreamRow = [] →
        artifactStream (exportToCsvStreamFold rows).written = []) ∧
    (exportToCSVFold ratio rows).written = rows.filterMap (exportToCSVRow ratio) ∧
    (artifactExportToCSV (exportToCSVFold ratio rows).written).head?
      = some ["part_number", "quantity", "vendor"] := by
  have hB : (exportToCsvStreamFold rows).written = rows.filterMap exportToCsvStreamRow := by
    unfold exportToCsvStreamFold
    rw [streamFold_written]
    simp [streamInit]
  have hC : (exportToCSVFold ratio rows).written = rows.filterMap (exportToCSVRow ratio) := by
    unfold exportToCSVFold
    rw [csvFold_written]
    simp [csvInit]
  refine ⟨hB, ?_, ?_, hC, rfl⟩
  · rw [hB]; rfl
  · intro h
    rw [hB, h]
    rfl

/-- Witness for C7 as amended: a run over the empty source produces the empty
artifact in variant B. -/
theorem C7_artifact_shape_amended_witness :
    artifactStream (exportToCsvStreamFold []).written = [] :=
  (C7_artifact_shape_amended (4/5) []).2.2.1 rfl

/-- The rows of the source table that a fetch with cursor `c` can still see:
the scripts issue `select ... order('id', ascending) limit(pageSize)` with a
`gt('id', cursor)` filter added once a cursor exists (`cursor != null` /
`lastId != null` in variants A and C; variant B always filters with its
integer cursor, initialised to `0`). `source` is the table in ascending id
order. -/
def remaining (c : Option Int) (source : List SourceRecord) : List SourceRecord :=
  match c with
  | none => source
  | some cv => source.filter fun r => decide (cv < r.id)

/-- One fetch: the first `pageSize` still-visible rows. -/
def fetchPage (source : List SourceRecord) (c : Option Int) (pageSize : ℕ) :
    List SourceRecord :=
  (remaining c source).take pageSize

/-- The id of the last element of a fetched page, `data[data.length - 1].id`,
with a default for the (unreachable in the loops) empty page. -/
def pageLastId : List SourceRecord → Int → Int
  | [], d => d
  | [r], _ => r.id
  | _ :: r2 :: rs, d => pageLastId (r2 :: rs) d

/-- The cursor-paging loop shared by the three variants, with explicit fuel.
Each iteration fetches one page; an empty page ends the loop
(`if (!data || data.length === 0) break`). When `shortBreak` is true the loop
also ends after processing a page shorter than `pageSize`
(`if (data.length < pageSize) break`, present in variant A
`exportCsvNoAggregation` but absent from variant B `exportToCsvStream` and
variant C `exportToCSV`). Otherwise the cursor becomes the id of the last row
of the page and the loop repeats. The result is the list of non-empty pages
in fetch order paired with the number of fetch calls made, or `none` if the
fuel ran out. -/
def pageLoop (source : List SourceRecord) (pageSize : ℕ) (shortBreak : Bool) :
    ℕ → Option Int → Option (List (List SourceRecord) × ℕ)
  | 0, _ => none
  | fuel + 1, c =>
    let page := fetchPage source c pageSize
    if page.isEmpty then some ([], 1)
    else if shortBreak && decide (page.length < pageSize) then some ([page], 1)
    else
      match pageLoop source pageSize shortBreak fuel (some (pageLastId page 0)) with
      | none => none
      | some (pages, k) => some (page :: pages, k + 1)

/-- The last id of a non-empty page is the id of one of its rows. -/
theorem pageLastId_mem : ∀ (l : List SourceRecord) (d : Int), l ≠ [] →
    ∃ r ∈ l, pageLastId l d = r.id := by
  intro l
  induction l with
  | nil => intro d h; exact absurd rfl h
  | cons a t ih =>
      intro d _
      cases t with
      | nil => exact ⟨a, List.mem_singleton_self a, rfl⟩
      | cons b t' =>
          obtain ⟨r, hr, hid⟩ := ih d (List.cons_ne_nil b t')
          exact ⟨r, List.mem_cons_of_mem a hr, hid⟩

/-- Filtering strictly shrinks a list that contains an element failing the
predicate. -/
theorem length_filter_lt_of_mem {α : Type} {p : α → Bool} :
    ∀ {l : List α} {x : α}, x ∈ l → p x = false → (l.filter p).length < l.length := by
  intro l
  induction l with
  | nil => intro x hx; exact absurd hx (List.not_mem_nil x)
  | cons a t ih =>
      intro x hx hpx
      rcases List.mem_cons.mp hx with rfl | hx'
      · rw [List.filter_cons_of_neg (by simp [hpx])]
        exact Nat.lt_succ_of_le (List.length_filter_le p t)
      · by_cases hpa : p a = true
        · rw [List.filter_cons_of_pos hpa]
          exact Nat.succ_lt_succ (ih hx' hpx)
        · rw [List.filter_cons_of_neg (by simpa using hpa)]
          exact Nat.lt_succ_of_lt (ih hx' hpx)

/-- A filter by a pointwise stronger predicate is at most as long. -/
theorem length_filter_le_filter {α : Type} {p q : α → Bool} :
    ∀ {l : List α}, (∀ a ∈ l, p a = true → q a = true) →
      (l.filter p).length ≤ (l.filter q).length := by
  intro l
  induction l with
  | nil => intro _; exact Nat.le_refl 0
  | cons a t ih =>
      intro himp
      have himp' : ∀ a ∈ t, p a = true → q a = true :=
        fun b hb => himp b (List.mem_cons_of_mem a hb)
      by_cases hpa : p a = true
      · rw [List.filter_cons_of_pos hpa,
          List.filter_cons_of_pos (himp a (List.mem_cons_self a t) hpa)]
        exact Nat.succ_le_succ (ih himp')
      · rw [List.filter_cons_of_neg (by simpa using hpa)]
        by_cases hqa : q a = true
        · rw [List.filter_cons_of_pos hqa]
          exact Nat.le_succ_of_le (ih himp')
        · rw [List.filter_cons_of_neg (by simpa using hqa)]
          exact ih himp'

/-- A filter by a pointwise stronger predicate is strictly shorter as soon as
the list contains a witness separating the two predicates. -/
theorem length_filter_lt_filter {α : Type} {p q : α → Bool} :
    ∀ {l : List α}, (∀ a ∈ l, p a = true → q a = true) →
      ∀ {x : α}, x ∈ l → q x = true → p x = false →
      (l.filter p).length < (l.filter q).length := by
  intro l
  induction l with
  | nil => intro _ x hx; exact absurd hx (List.not_mem_nil x)
  | cons a t ih =>
      intro himp x hx hqx hpx
      have himp' : ∀ a ∈ t, p a = true → q a = true :=
        fun b hb => himp b (List.mem_cons_of_mem a hb)
      rcases List.mem_cons.mp hx with rfl | hx'
      · rw [List.filter_cons_of_neg (by simp [hpx]), List.filter_cons_of_pos hqx]
        exact Nat.lt_succ_of_le (length_filter_le_filter himp')
      · by_cases hpa : p a = true
        · rw [List.filter_cons_of_pos hpa, List.filter_cons_of_pos (himp a (List.mem_cons_self a t) hpa)]
          exact Nat.succ_lt_succ (ih himp' hx' hqx hpx)
        · rw [List.filter_cons_of_neg (by simpa using hpa)]
          by_cases hqa : q a = true
          · rw [List.filter_cons_of_pos hqa]
            exact Nat.lt_succ_of_lt (ih himp' hx' hqx hpx)
          · rw [List.filter_cons_of_neg (by simpa using hqa)]
            exact ih himp' hx' hqx hpx

/-- Composing two filters where the outer predicate implies the inner one
collapses to the outer filter alone. -/
theorem filter_filter_of_imp {α : Type} {p q : α → Bool}
    (himp : ∀ a, p a = true → q a = true) :
    ∀ l : List α, (l.filter q).filter p = l.filter p := by
  intro l
  induction l with
  | nil => rfl
  | cons a t ih =>
      by_cases hqa : q a = true
      · rw [List.filter_cons_of_pos hqa]
        by_cases hpa : p a = true
        · rw [List.filter_cons_of_pos hpa, List.filter_cons_of_pos hpa, ih]
        · rw [List.filter_cons_of_neg (by simpa using hpa),
            List.filter_cons_of_neg (by simpa using hpa), ih]
      · have hpa : p a = false := by
          by_contra hc
          exact hqa (himp a (by simpa using hc))
        rw [List.filter_cons_of_neg (by simpa using hqa),
          List.filter_cons_of_neg (by simp [hpa]), ih]

/-- Progress: after a non-empty fetch, the set of still-visible rows strictly
shrinks, because the new cursor is the id of the last fetched row and the next
fetch is filtered to strictly greater ids. No sortedness assumption is
needed. -/
theorem remaining_next_lt (source : List SourceRecord) (c : Option Int) (P : ℕ)
    (h : fetchPage source c P ≠ []) :
    (remaining (some (pageLastId (fetchPage source c P) 0)) source).length
      < (remaining c source).length := by
  obtain ⟨x, hxpage, hid⟩ := pageLastId_mem (fetchPage source c P) 0 h
  have hxrem : x ∈ remaining c source := List.take_subset _ _ hxpage
  have hpx : decide (pageLastId (fetchPage source c P) 0 < x.id) = false := by
    rw [hid]; simp
  cases c with
  | none =>
      exact length_filter_lt_of_mem hxrem hpx
  | some cv =>
      have hxsrc : x ∈ source := List.mem_of_mem_filter hxrem
      have hcv : cv < x.id := by
        have := (List.mem_filter.mp hxrem).2
        simpa using this
      refine length_filter_lt_filter ?_ hxsrc ?_ hpx
      · intro a _ ha
        have hL : pageLastId (fetchPage source (some cv) P) 0 < a.id := by simpa using ha
        have : cv < a.id := lt_trans (by rw [hid]; exact hcv) hL
        simpa
      · simpa

/-- With fuel exceeding the number of still-visible rows, the paging loop
always returns a result instead of running out of fuel. -/
theorem pageLoop_total : ∀ (n : ℕ) (source : List SourceRecord) (P : ℕ) (sb : Bool)
    (c : Option Int), (remaining c source).length ≤ n →
    ∃ out, pageLoop source P sb (n + 1) c = some out := by
  intro n
  induction n with
  | zero =>
      intro source P sb c hle
      have h0 : remaining c source = [] := List.eq_nil_of_length_eq_zero (Nat.le_zero.mp hle)
      have hp : fetchPage source c P = [] := by unfold fetchPage; rw [h0]; simp
      exact ⟨([], 1), by simp [pageLoop, hp]⟩
  | succ n ih =>
      intro source P sb c hle
      by_cases hp : fetchPage source c P = []
      · exact ⟨([], 1), by simp [pageLoop, hp]⟩
      · have hempty : (fetchPage source c P).isEmpty = false := by
          cases hfp : fetchPage source c P with
          | nil => exact absurd hfp hp
          | cons a t => rfl
        have hnext : (remaining (some (pageLastId (fetchPage source c P) 0)) source).length ≤ n :=
          Nat.lt_succ_iff.mp
            (Nat.lt_of_lt_of_le (remaining_next_lt source c P hp) hle)
        obtain ⟨⟨pages, k⟩, hout⟩ := ih source P sb (some (pageLastId (fetchPage source c P) 0)) hnext
        cases hsb : sb && decide ((fetchPage source c P).length < P) with
        | true =>
            refine ⟨([fetchPage source c P], 1), ?_⟩
            rw [pageLoop]
            simp [hempty, hsb]
        | false =>
            refine ⟨(fetchPage source c P :: pages, k + 1), ?_⟩
            rw [pageLoop]
            simp [hempty, hsb, hout]

/-- For a strictly id-sorted list, the rows with id beyond the last id of the
first `P` rows are exactly the rows after the first `P`. -/
theorem sorted_filter_after_take :
    ∀ (rest : List SourceRecord), rest.Pairwise (fun a b => a.id < b.id) →
      ∀ P : ℕ, 0 < P → rest ≠ [] →
      rest.filter (fun r => decide (pageLastId (rest.take P) 0 < r.id)) = rest.drop P := by
  intro rest
  induction rest with
  | nil => intro _ P _ h; exact absurd rfl h
  | cons a t ih =>
      intro hpw P hP _
      have hhead : ∀ b ∈ t, a.id < b.id := (List.pairwise_cons.mp hpw).1
      have htail : t.Pairwise (fun x y => x.id < y.id) := (List.pairwise_cons.mp hpw).2
      rcases P with _ | _ | k
      · omega
      · show (a :: t).filter (fun r => decide (pageLastId [a] 0 < r.id)) = t
        rw [List.filter_cons_of_neg (by simp [pageLastId])]
        exact List.filter_eq_self.mpr fun b hb => by simpa using hhead b hb
      · cases t with
        | nil =>
            show ([a] : List SourceRecord).filter
                (fun r => decide (pageLastId [a] 0 < r.id)) = []
            rw [List.filter_cons_of_neg (by simp [pageLastId])]
            rfl
        | cons b t' =>
            have hne : (b :: t').take (k + 1) ≠ [] := by
              show b :: t'.take k ≠ []
              exact List.cons_ne_nil _ _
            obtain ⟨x, hx, hxid⟩ := pageLastId_mem ((b :: t').take (k + 1)) 0 hne
            have hax : a.id < x.id := hhead x (List.take_subset _ _ hx)
            show (a :: b :: t').filter
                (fun r => decide (pageLastId ((b :: t').take (k + 1)) 0 < r.id))
              = (b :: t').drop (k + 1)
            rw [List.filter_cons_of_neg (by rw [hxid]; simp; exact le_of_lt hax)]
            exact ih htail (k + 1) (Nat.succ_pos k) (List.cons_ne_nil _ _)

/-- In a strictly id-sorted page, the last id bounds every row's id. -/
theorem pageLastId_is_max :
    ∀ (l : List SourceRecord), l.Pairwise (fun a b => a.id < b.id) →
      ∀ r ∈ l, r.id ≤ pageLastId l 0 := by
  intro l
  induction l with
  | nil => intro _ r hr; exact absurd hr (List.not_mem_nil r)
  | cons a t ih =>
      intro hpw r hr
      have hhead : ∀ b ∈ t, a.id < b.id := (List.pairwise_cons.mp hpw).1
      have htail : t.Pairwise (fun x y => x.id < y.id) := (List.pairwise_cons.mp hpw).2
      cases t with
      | nil =>
          rcases List.mem_singleton.mp hr with rfl
          exact le_refl _
      | cons b t' =>
          rcases List.mem_cons.mp hr with rfl | hr'
          · obtain ⟨x, hx, hxid⟩ := pageLastId_mem (b :: t') 0 (List.cons_ne_nil _ _)
            show r.id ≤ pageLastId (b :: t') 0
            rw [hxid]
            exact le_of_lt (hhead x hx)
          · show r.id ≤ pageLastId (b :: t') 0
            exact ih htail r hr'

/-- Arithmetic step for the fetch-count bound: consuming one page of size `P`
from `N ≥ 1` still-visible rows keeps the recursive bound below the top-level
one. -/
theorem fetch_count_bound_arith {N P : ℕ} (hN : 1 ≤ N) (hP : 1 ≤ P) :
    (N - P + P - 1) / P + 1 ≤ (N + P - 1) / P := by
  rcases le_or_lt N P with h | h
  · have h1 : N - P = 0 := Nat.sub_eq_zero_of_le h
    rw [h1]
    have h2 : (0 + P - 1) / P = 0 := Nat.div_eq_of_lt (by omega)
    rw [h2]
    have h3 : 1 * P ≤ N + P - 1 := by omega
    have := (Nat.le_div_iff_mul_le hP).mpr h3
    omega
  · have h1 : N - P + P - 1 = N - 1 := by omega
    have h2 : N - 1 + P = N + P - 1 := by omega
    have heq : (N - P + P - 1) / P + 1 = (N + P - 1) / P := by
      rw [h1, ← h2, Nat.add_div_right _ hP]
    exact le_of_eq heq

/-- Full behaviour of the paging loop over a strictly id-sorted source: with
sufficient fuel it returns, the concatenation of the fetched pages is exactly
the list of rows visible from the initial cursor, and the number of fetch
calls is at most `⌈N/P⌉ + 1`. -/
theorem pageLoop_sorted_spec :
    ∀ (n : ℕ) (source : List SourceRecord),
      source.Pairwise (fun a b => a.id < b.id) →
      ∀ (sb : Bool) (P : ℕ) (c : Option Int), 0 < P →
      (remaining c source).length ≤ n →
      ∃ pages k, pageLoop source P sb (n + 1) c = some (pages, k) ∧
        pages.join = remaining c source ∧
        k ≤ ((remaining c source).length + P - 1) / P + 1 := by
  intro n
  induction n with
  | zero =>
      intro source hpw sb P c hP hle
      have h0 : remaining c source = [] := List.eq_nil_of_length_eq_zero (Nat.le_zero.mp hle)
      have hp : fetchPage source c P = [] := by unfold fetchPage; rw [h0]; simp
      refine ⟨[], 1, by simp [pageLoop, hp], by rw [h0]; rfl, by simp [h0]⟩
  | succ n ih =>
      intro source hpw sb P c hP hle
      by_cases hrest : remaining c source = []
      · have hp : fetchPage source c P = [] := by unfold fetchPage; rw [hrest]; simp
        refine ⟨[], 1, by simp [pageLoop, hp], by rw [hrest]; rfl, by simp [hrest]⟩
      · have hNpos : 0 < (remaining c source).length := List.length_pos.mpr hrest
        have hlenfetch : (fetchPage source c P).length = min P (remaining c source).length :=
          List.length_take _ _
        have hp : fetchPage source c P ≠ [] := by
          intro hcon
          rw [hcon] at hlenfetch
          simp only [List.length_nil] at hlenfetch
          omega
        have hempty : (fetchPage source c P).isEmpty = false := by
          cases hfp : fetchPage source c P with
          | nil => exact absurd hfp hp
          | cons a t => rfl
        have hrem_pw : (remaining c source).Pairwise (fun a b => a.id < b.id) := by
          cases c with
          | none => exact hpw
          | some cv => exact hpw.sublist (List.filter_sublist _)
        have hstep2 :
            (remaining c source).filter
                (fun r => decide (pageLastId (fetchPage source c P) 0 < r.id))
              = (remaining c source).drop P :=
          sorted_filter_after_take (remaining c source) hrem_pw P hP hrest
        have hdrop :
            remaining (some (pageLastId (fetchPage source c P) 0)) source
              = (remaining c source).drop P := by
          cases c with
          | none => exact hstep2
          | some cv =>
              obtain ⟨x, hx, hxid⟩ := pageLastId_mem _ 0 hp
              have hcv : cv < x.id := by
                have hxrem : x ∈ remaining (some cv) source := List.take_subset _ _ hx
                have := (List.mem_filter.mp hxrem).2
                simpa using this
              have himp : ∀ a : SourceRecord,
                  decide (pageLastId (fetchPage source (some cv) P) 0 < a.id) = true →
                  decide (cv < a.id) = true := by
                intro a ha
                have hLa : pageLastId (fetchPage source (some cv) P) 0 < a.id :=
                  of_decide_eq_true ha
                rw [hxid] at hLa
                exact decide_eq_true (lt_trans hcv hLa)
              show source.filter
                  (fun r => decide (pageLastId (fetchPage source (some cv) P) 0 < r.id))
                = (remaining (some cv) source).drop P
              rw [← filter_filter_of_imp himp source]
              exact hstep2
        have hNlen :
            (remaining (some (pageLastId (fetchPage source c P) 0)) source).length ≤ n := by
          have := remaining_next_lt source c P hp
          omega
        cases hsb : sb && decide ((fetchPage source c P).length < P) with
        | true =>
            have hsb' := hsb
            simp only [Bool.and_eq_true, decide_eq_true_eq] at hsb'
            have hshort : (fetchPage source c P).length < P := hsb'.2
            have hNP : (remaining c source).length ≤ P := by omega
            have hall : fetchPage source c P = remaining c source :=
              List.take_of_length_le hNP
            refine ⟨[fetchPage source c P], 1, ?_, ?_, ?_⟩
            · rw [pageLoop]; simp [hempty, hsb]
            · show fetchPage source c P ++ ([] : List (List SourceRecord)).join
                = remaining c source
              rw [show ([] : List (List SourceRecord)).join = [] from rfl, List.append_nil]
              exact hall
            · exact Nat.le_add_left 1 _
        | false =>
            obtain ⟨pages', k', hout, hjoin, hk⟩ :=
              ih source hpw sb P (some (pageLastId (fetchPage source c P) 0)) hP hNlen
            refine ⟨fetchPage source c P :: pages', k' + 1, ?_, ?_, ?_⟩
            · rw [pageLoop]; simp [hempty, hsb, hout]
            · show fetchPage source c P ++ pages'.join = remaining c source
              rw [hjoin, hdrop]
              exact List.take_append_drop P (remaining c source)
            · have harith := fetch_count_bound_arith hNpos hP
              rw [hdrop, List.length_drop] at hk
              exact Nat.succ_le_succ (le_trans hk harith)

/-- Counterexample to claim C3: the claim allows at most `⌈N/P⌉` fetch calls.
For a source of one record and page size 1000 (the configured page size),
`⌈1/1000⌉ = 1`, but variant B's loop (cursor starting at `0`, no short-page
break) performs 2 fetch calls: the page of one record is not empty, so the
loop fetches again and only stops on the following empty page. The same
happens in variants A and C whenever `N` is a positive multiple of `P`. -/
theorem C3_fetch_count_counterexample :
    pageLoop [⟨1, "A1", 10, ""⟩] 1000 false 2 (some 0)
      = some ([[⟨1, "A1", 10, ""⟩]], 2) ∧ ¬(2 ≤ (1 + 1000 - 1) / 1000) := by
  exact ⟨rfl, by decide⟩

/-- Claim C3 as amended: for every strictly id-sorted source and page size
`P ≥ 1`, the paging loop (with or without the short-page break, from any
initial cursor) terminates and yields every still-visible record exactly once,
in ascending id order, using at most `⌈N/P⌉ + 1` fetch calls (the possible
extra call is the final empty fetch); pagination ends on an empty page, and
with the short-page break also on a short page. -/
theorem C3_pagination_amended (source : List SourceRecord)
    (hpw : source.Pairwise (fun a b => a.id < b.id)) (sb : Bool) (P : ℕ)
    (c : Option Int) (hP : 0 < P) :
    ∃ pages k,
      pageLoop source P sb ((remaining c source).length + 1) c = some (pages, k) ∧
      pages.join = remaining c source ∧
      pages.join.Pairwise (fun a b => a.id < b.id) ∧
      pages.join.Nodup ∧
      k ≤ ((remaining c source).length + P - 1) / P + 1 := by
  obtain ⟨pages, k, h1, h2, h3⟩ :=
    pageLoop_sorted_spec (remaining c source).length source hpw sb P c hP (le_refl _)
  have hrem_pw : (remaining c source).Pairwise (fun a b => a.id < b.id) := by
    cases c with
    | none => exact hpw
    | some cv => exact hpw.sublist (List.filter_sublist _)
  have hjoin_pw : pages.join.Pairwise (fun a b => a.id < b.id) := by
    rw [h2]; exact hrem_pw
  refine ⟨pages, k, h1, h2, hjoin_pw, ?_, h3⟩
  exact hjoin_pw.imp fun hlt => by
    intro heq
    rw [heq] at hlt
    exact lt_irrefl _ hlt

/-- Witness for C3 as amended: a two-record source with page size 1, no
short-page break, and no initial cursor. -/
theorem C3_pagination_amended_witness :
    ∃ pages k,
      pageLoop [⟨1, "A1", 10, ""⟩, ⟨2, "B2", 1, ""⟩] 1 false
          ((remaining none [⟨1, "A1", 10, ""⟩, ⟨2, "B2", 1, ""⟩]).length + 1) none
        = some (pages, k) ∧
      pages.join = remaining none [⟨1, "A1", 10, ""⟩, ⟨2, "B2", 1, ""⟩] ∧
      pages.join.Pairwise (fun a b => a.id < b.id) ∧
      pages.join.Nodup ∧
      k ≤ ((remaining none [⟨1, "A1", 10, ""⟩, ⟨2, "B2", 1, ""⟩]).length + 1 - 1) / 1 + 1 :=
  C3_pagination_amended [⟨1, "A1", 10, ""⟩, ⟨2, "B2", 1, ""⟩]
    (by rw [List.pairwise_cons]
        exact ⟨by intro b hb
                  rcases List.mem_singleton.mp hb with rfl
                  decide,
               List.pairwise_singleton _ _⟩)
    false 1 none (by decide)

/-- Claim C10: the export pagination loop terminates on every finite source.
With fuel exceeding the number of still-visible rows the loop returns instead
of running out of fuel; each non-empty fetch strictly shrinks the set of
still-visible rows, because the cursor becomes the id of the last row of the
page (which, on an id-sorted source, is the maximum id of the page) and the
next fetch is filtered to strictly greater ids. -/
theorem C10_pagination_terminates :
    (∀ (source : List SourceRecord) (P : ℕ) (sb : Bool) (c : Option Int),
        ∃ out, pageLoop source P sb ((remaining c source).length + 1) c = some out) ∧
    (∀ (source : List SourceRecord) (c : Option Int) (P : ℕ),
        fetchPage source c P ≠ [] →
        (remaining (some (pageLastId (fetchPage source c P) 0)) source).length
          < (remaining c source).length) ∧
    (∀ (source : List SourceRecord) (cv : Int) (P : ℕ),
        fetchPage source (some cv) P ≠ [] →
        cv < pageLastId (fetchPage source (some cv) P) 0) ∧
    (∀ (source : List SourceRecord) (c : Option Int) (P : ℕ),
        source.Pairwise (fun a b => a.id < b.id) →
        ∀ r ∈ fetchPage source c P, r.id ≤ pageLastId (fetchPage source c P) 0) := by
  refine ⟨?_, ?_, ?_, ?_⟩
  · intro source P sb c
    exact pageLoop_total (remaining c source).length source P sb c (le_refl _)
  · intro source c P hp
    exact remaining_next_lt source c P hp
  · intro source cv P hp
    obtain ⟨x, hx, hxid⟩ := pageLastId_mem _ 0 hp
    have hxrem : x ∈ remaining (some cv) source := List.take_subset _ _ hx
    have := (List.mem_filter.mp hxrem).2
    rw [hxid]
    simpa using this
  · intro source c P hpw r hr
    have hpage_pw : (fetchPage source c P).Pairwise (fun a b => a.id < b.id) := by
      have hrem_pw : (remaining c source).Pairwise (fun a b => a.id < b.id) := by
        cases c with
        | none => exact hpw
        | some cv => exact hpw.sublist (List.filter_sublist _)
      exact hrem_pw.sublist (List.take_sublist _ _)
    exact pageLastId_is_max _ hpage_pw r hr

/-- Witness for C10: on the one-record source with cursor 0 and page size
1000, the fetched page is non-empty, the cursor strictly increases to 1, and
the set of still-visible rows strictly shrinks. -/
theorem C10_pagination_terminates_witness :
    (0 : Int) < pageLastId (fetchPage [⟨1, "A1", 10, ""⟩] (some 0) 1000) 0 ∧
    (remaining (some (pageLastId (fetchPage [⟨1, "A1", 10, ""⟩] (some 0) 1000) 0))
        [⟨1, "A1", 10, ""⟩]).length
      < (remaining (some 0) [⟨1, "A1", 10, ""⟩]).length :=
  ⟨C10_pagination_terminates.2.2.1 [⟨1, "A1", 10, ""⟩] 0 1000 (by decide),
   C10_pagination_terminates.2.1 [⟨1, "A1", 10, ""⟩] (some 0) 1000 (by decide)⟩

/-- One entry of an FTP directory listing (`basic-ftp` `FileInfo`): a name, a
reported size, and whether the entry is a regular file. -/
structure RemoteFile where
  name : String
  size : Int
  isFile : Bool
  deriving DecidableEq, Repr

/-- Variant B `uploadViaFtp(localPath, remoteName)`. The interactions with the
outside world are inputs: `dryRun` is the dry-run flag (return early with the
local file size), `connectRes` stands for the FTP steps before the
post-upload listing (`access`/`pwd`/`list`/`ensureDir`/`uploadFrom`; an
exception there is caught by the function's own `catch`, which returns
`{ ok: false, size: 0 }`), and `after` is the post-upload listing. When the
listing contains an entry named `remoteName` the function returns
`{ ok: true, size: entry.size }`; when it does not, the function only warns
and returns `{ ok: true, size: 0 }`. -/
def uploadViaFtp (dryRun : Bool) (localSize : Int) (connectRes : Except String Unit)
    (after : List RemoteFile) (remoteName : String) : Bool × Int :=
  if dryRun then (true, localSize)
  else
    match connectRes with
    | .error _ => (false, 0)
    | .ok _ =>
        match after.find? (fun f => f.name == remoteName) with
        | some f => (true, f.size)
        | none => (true, 0)

/-- Variant C `uploadToICSource()`. The function has no `catch`: a connection
failure (`connectRes = .error e`) propagates, and after the post-upload
listing it scans every `isFile` entry, remembering the size of the last entry
whose name matches; if none matched it throws
`'Upload appears to be missing on remote.'`, otherwise it returns the
size. -/
def uploadToICSource (connectRes : Except String Unit) (after : List RemoteFile)
    (remoteName : String) : Except String Int :=
  match connectRes with
  | .error e => .error e
  | .ok _ =>
      match after.foldl
          (fun acc f => if f.isFile && f.name == remoteName then some f.size else acc)
          none with
      | none => .error "Upload appears to be missing on remote."
      | some s => .ok s

/-- The export statistics returned by variant A `exportCsvNoAggregation`. -/
structure StatsA where
  lineCount : ℕ
  distinctSkus : ℕ
  totalQty : ℚ
  deriving DecidableEq, Repr

/-- The columns of the audit row inserted by variant A `insertLog` that the
claims are about. -/
structure AuditRowA where
  line_count : ℕ
  distinct_skus : ℕ
  total_qty : ℚ
  file_size : Int
  status : String
  note : String
  deriving DecidableEq, Repr

/-- The outside-world behaviour driving one run of variant A's IIFE:
the outcome of `exportCsvNoAggregation()`, of `uploadToIcSource(outFile)`
(`remoteSize` and `remoteDir` on success), and of the two textually distinct
`insertLog` calls (the success-path one and the catch-block one). -/
structure EnvA where
  exportRes : Except String StatsA
  uploadRes : Except String (Int × String)
  log1Res : Except String Unit
  log2Res : Except String Unit

/-- What one run produced: the process exit code, how many audit-log inserts
were attempted, and the audit rows actually stored (an attempt that throws
stores nothing). -/
structure OutcomeA where
  exitCode : ℕ
  auditAttempts : ℕ
  loggedRows : List AuditRowA
  deriving DecidableEq, Repr

/-- The `catch` block of variant A's IIFE: build the zeroed failure payload
with `status = 'ERR'` and `note = err.message.slice(0, 200)`, try to insert
it, swallow a failure of that insert (`console.error` only), and set
`process.exitCode = 1`. -/
def mainACatch (env : EnvA) (e : String) : OutcomeA :=
  let row : AuditRowA := ⟨0, 0, 0, 0, "ERR", jsSlice200 e⟩
  match env.log2Res with
  | .ok _ => { exitCode := 1, auditAttempts := 1, loggedRows := [row] }
  | .error _ => { exitCode := 1, auditAttempts := 1, loggedRows := [] }

/-- Variant A's IIFE: export, upload, decide `status` from the remote size,
insert the success-path log row; any exception (including one thrown by the
success-path `insertLog`) falls into the catch block, which attempts a second,
zeroed insert. -/
def mainA (env : EnvA) : OutcomeA :=
  match env.exportRes with
  | .error e => mainACatch env e
  | .ok stats =>
      match env.uploadRes with
      | .error e => mainACatch env e
      | .ok up =>
          let status := if 0 < up.1 then "OK" else "ERR"
          let note := if 0 < up.1 then "OK" else "Remote file size 0"
          match env.log1Res with
          | .error e => { mainACatch env e with auditAttempts := 2 }
          | .ok _ =>
              { exitCode := 0, auditAttempts := 1,
                loggedRows :=
                  [⟨stats.lineCount, stats.distinctSkus, stats.totalQty, up.1, status, note⟩] }

/-- The export statistics returned by variant B `exportToCsvStream`. -/
structure StatsB where
  lineCount : ℕ
  distinctSkus : ℕ
  totalQty : Int
  fileSize : Int
  deriving DecidableEq, Repr

/-- The payload of variant B `writeLogMinimal` (it has no status or success
column). -/
structure AuditRowB where
  line_count : ℕ
  distinct_skus : ℕ
  total_qty : Int
  file_size : Int
  deriving DecidableEq, Repr

/-- The outside-world behaviour driving one run of variant B's IIFE. -/
structure EnvB where
  dryRun : Bool
  exportRes : Except String StatsB
  connectRes : Except String Unit
  after : List RemoteFile
  logRes : Except String Unit

/-- What one run of variant B produced. -/
structure OutcomeB where
  exitCode : ℕ
  auditAttempts : ℕ
  loggedRows : List AuditRowB
  deriving DecidableEq, Repr

/-- Variant B's IIFE: export, `uploadViaFtp` (which never throws), then
`writeLogMinimal` with `file_size = up.size || stats.fileSize`; any exception
hits the single catch block, which only prints and calls `process.exit(1)` —
in particular an export failure produces no audit attempt at all. -/
def mainB (env : EnvB) : OutcomeB :=
  match env.exportRes with
  | .error _ => { exitCode := 1, auditAttempts := 0, loggedRows := [] }
  | .ok stats =>
      let up := uploadViaFtp env.dryRun stats.fileSize env.connectRes env.after
        "verified_inventory.csv"
      let sizeForLog := if up.2 = 0 then stats.fileSize else up.2
      match env.logRes with
      | .error _ => { exitCode := 1, auditAttempts := 1, loggedRows := [] }
      | .ok _ =>
          { exitCode := 0, auditAttempts := 1,
            loggedRows := [⟨stats.lineCount, stats.distinctSkus, stats.totalQty, sizeForLog⟩] }

/-- The export statistics returned by variant C `exportToCSV`. -/
structure StatsC where
  lines : ℕ
  distinct : ℕ
  totalQty : Int
  fileSize : Int
  deriving DecidableEq, Repr

/-- The columns of the audit row inserted by variant C `writeLog` that the
claims are about: on the catch path `exportStats` is `null`, so the numeric
fields are `null` (`exportStats?.lines ?? null`). -/
structure AuditRowC where
  line_count : Option ℕ
  distinct_skus : Option ℕ
  total_qty : Option Int
  file_size : Option Int
  success : Bool
  message : String
  deriving DecidableEq, Repr

/-- The outside-world behaviour driving one run of variant C's IIFE. -/
structure EnvC where
  dryRun : Bool
  exportRes : Except String StatsC
  connectRes : Except String Unit
  after : List RemoteFile
  logOkRes : Except String Unit
  logErrRes : Except String Unit

/-- What one run of variant C produced. -/
structure OutcomeC where
  exitCode : ℕ
  auditAttempts : ℕ
  loggedRows : List AuditRowC
  deriving DecidableEq, Repr

/-- The catch block of variant C's IIFE: attempt
`writeLog({ ok: false, msg, exportStats: null, ftpInfo: null })` (an
all-`null` statistics row with `success = false`), swallow a failure of that
insert, and `process.exit(1)`. `attempts` counts the audit attempts already
made on the path into the catch. -/
def mainCCatch (env : EnvC) (attempts : ℕ) (e : String) : OutcomeC :=
  let row : AuditRowC := ⟨none, none, none, none, false, e⟩
  match env.logErrRes with
  | .ok _ => { exitCode := 1, auditAttempts := attempts + 1, loggedRows := [row] }
  | .error _ => { exitCode := 1, auditAttempts := attempts + 1, loggedRows := [] }

/-- Variant C's IIFE: export, then `uploadToICSource` unless dry-run (its
exceptions, including the missing-on-remote verification error, propagate to
the catch), then the success-path `writeLog({ ok: true, msg: 'OK', ... })` and
`process.exit(0)`; any exception goes to the catch block. -/
def mainC (env : EnvC) : OutcomeC :=
  match env.exportRes with
  | .error e => mainCCatch env 0 e
  | .ok stats =>
      let uploadRes : Except String Int :=
        if env.dryRun then .ok 0
        else uploadToICSource env.connectRes env.after "verified_inventory.csv"
      match uploadRes with
      | .error e => mainCCatch env 0 e
      | .ok _ =>
          match env.logOkRes with
          | .error e => mainCCatch env 1 e
          | .ok _ =>
              { exitCode := 0, auditAttempts := 1,
                loggedRows :=
                  [⟨some stats.lines, some stats.distinct, some stats.totalQty,
                    some stats.fileSize, true, "OK"⟩] }

/-- The listing scan of `uploadToICSource` stays empty-handed when no regular
file in the listing bears the uploaded name. -/
theorem uploadScan_none (remoteName : String) :
    ∀ l : List RemoteFile, (∀ f ∈ l, f.isFile = true → f.name ≠ remoteName) →
      l.foldl (fun acc f => if f.isFile && f.name == remoteName then some f.size else acc)
          none = none := by
  intro l
  induction l with
  | nil => intro _; rfl
  | cons a t ih =>
      intro h
      have hcond : (a.isFile && a.name == remoteName) = false := by
        by_cases hf : a.isFile = true
        · have hne : a.name ≠ remoteName := h a (List.mem_cons_self a t) hf
          simp [hf, hne]
        · simp [Bool.eq_false_iff.mpr hf]
      rw [List.foldl_cons, if_neg (by simp [hcond])]
      exact ih fun f hf => h f (List.mem_cons_of_mem a hf)

/-- The listing scan of `uploadToICSource` ends with a size whenever the
listing contains a matching regular file (or the accumulator already holds
one). -/
theorem uploadScan_isSome (remoteName : String) :
    ∀ (l : List RemoteFile) (acc : Option Int),
      ((∃ f ∈ l, f.isFile = true ∧ f.name = remoteName) ∨ acc.isSome = true) →
      (l.foldl (fun acc f => if f.isFile && f.name == remoteName then some f.size else acc)
          acc).isSome = true := by
  intro l
  induction l with
  | nil =>
      intro acc h
      rcases h with ⟨f, hf, _⟩ | h
      · exact absurd hf (List.not_mem_nil f)
      · exact h
  | cons a t ih =>
      intro acc h
      rw [List.foldl_cons]
      by_cases hcond : (a.isFile && a.name == remoteName) = true
      · rw [if_pos hcond]
        exact ih _ (Or.inr rfl)
      · rw [if_neg hcond]
        rcases h with ⟨f, hf, hfile, hname⟩ | hacc
        · rcases List.mem_cons.mp hf with rfl | hf'
          · exact absurd (by simp [hfile, hname]) hcond
          · exact ih _ (Or.inl ⟨f, hf', hfile, hname⟩)
        · exact ih _ (Or.inr hacc)

/-- Counterexample to claim C6: when the post-upload listing does not contain
the uploaded name, the claim requires a failure TransferResult captured as
data. Instead, variant B's `uploadViaFtp` reports success with size 0
(`ok: true` after only a console warning), and variant C's `uploadToICSource`
throws an exception rather than capturing the failure as data. -/
theorem C6_verification_counterexample :
    uploadViaFtp false 25 (.ok ()) [] "verified_inventory.csv" = (true, 0) ∧
    uploadToICSource (.ok ()) [] "verified_inventory.csv"
      = .error "Upload appears to be missing on remote." :=
  ⟨rfl, rfl⟩

/-- Claim C6 as amended: after the upload the remote directory is
re-enumerated and the uploaded name is located by exact match; if found, the
result is success with the reported size. If the name is not found,
`uploadViaFtp` still returns `ok: true` with size 0 (only a warning), while
`uploadToICSource` throws a descriptive error — which its caller's catch block
then converts into a failure AuditRow, so the audit step still runs. -/
theorem C6_verification_amended :
    (∀ (localSize : Int) (after : List RemoteFile) (remoteName : String) (f : RemoteFile),
        after.find? (fun g => g.name == remoteName) = some f →
        uploadViaFtp false localSize (.ok ()) after remoteName = (true, f.size)) ∧
    (∀ (localSize : Int) (after : List RemoteFile) (remoteName : String),
        (∀ f ∈ after, f.name ≠ remoteName) →
        uploadViaFtp false localSize (.ok ()) after remoteName = (true, 0)) ∧
    (∀ (after : List RemoteFile) (remoteName : String),
        (∀ f ∈ after, f.isFile = true → f.name ≠ remoteName) →
        uploadToICSource (.ok ()) after remoteName
          = .error "Upload appears to be missing on remote.") ∧
    (∀ (after : List RemoteFile) (remoteName : String) (f : RemoteFile),
        f ∈ after → f.isFile = true → f.name = remoteName →
        ∃ s, uploadToICSource (.ok ()) after remoteName = .ok s) := by
  refine ⟨?_, ?_, ?_, ?_⟩
  · intro localSize after remoteName f hfind
    unfold uploadViaFtp
    rw [if_neg (by simp), hfind]
  · intro localSize after remoteName h
    have hfind : after.find? (fun g => g.name == remoteName) = none :=
      List.find?_eq_none.mpr fun x hx => by simpa using h x hx
    unfold uploadViaFtp
    rw [if_neg (by simp), hfind]
  · intro after remoteName h
    unfold uploadToICSource
    rw [uploadScan_none remoteName after h]
  · intro after remoteName f hf hfile hname
    have hsome := uploadScan_isSome remoteName after none (Or.inl ⟨f, hf, hfile, hname⟩)
    unfold uploadToICSource
    cases hscan : after.foldl
        (fun acc f => if f.isFile && f.name == remoteName then some f.size else acc)
        none with
    | none => rw [hscan] at hsome; exact absurd hsome (by simp)
    | some s => exact ⟨s, rfl⟩

/-- Witness for C6 as amended: a listing holding only `other.csv` does not
match, so `uploadViaFtp` returns `ok: true` with size 0. -/
theorem C6_verification_amended_witness :
    uploadViaFtp false 25 (.ok ()) [⟨"other.csv", 10, true⟩] "verified_inventory.csv"
      = (true, 0) :=
  C6_verification_amended.2.1 25 [⟨"other.csv", 10, true⟩] "verified_inventory.csv"
    (by intro f hf
        rcases List.mem_singleton.mp hf with rfl
        decide)

/-- Counterexample to claim C2: the claim requires exactly one AuditRow per
invocation even on total failure of extraction. In variant B a throwing
export falls into the IIFE's only catch, which prints `Fatal error` and calls
`process.exit(1)` without ever touching the audit sink: zero AuditRows are
attempted or produced. -/
theorem C2_audit_row_counterexample :
    mainB { dryRun := false, exportRes := .error "Supabase fetch error: boom",
            connectRes := .ok (), after := [], logRes := .ok () }
      = { exitCode := 1, auditAttempts := 0, loggedRows := [] } := rfl

/-- Claim C2 as amended: variants A and C attempt at least one AuditRow per
invocation even on total failure of extraction, transformation or transfer —
on the failure path the attempted row has zeroed (variant A) or null
(variant C) statistics and a failure status — but variant B produces an
AuditRow only when the export step completes without throwing; on an export
failure it produces none. -/
theorem C2_audit_row_amended :
    (∀ env : EnvA, 1 ≤ (mainA env).auditAttempts) ∧
    (∀ env : EnvC, 1 ≤ (mainC env).auditAttempts) ∧
    (∀ (env : EnvA) (e : String), env.exportRes = .error e → env.log2Res = .ok () →
        (mainA env).loggedRows = [⟨0, 0, 0, 0, "ERR", jsSlice200 e⟩]) ∧
    (∀ (env : EnvC) (e : String), env.exportRes = .error e → env.logErrRes = .ok () →
        (mainC env).loggedRows = [⟨none, none, none, none, false, e⟩]) ∧
    (∀ (env : EnvB) (e : String), env.exportRes = .error e →
        mainB env = { exitCode := 1, auditAttempts := 0, loggedRows := [] }) := by
  refine ⟨?_, ?_, ?_, ?_, ?_⟩
  · intro env
    rcases env with ⟨ex, up, l1, l2⟩
    cases ex <;> cases up <;> cases l1 <;> cases l2 <;> simp [mainA, mainACatch]
  · intro env
    rcases env with ⟨dr, ex, cr, after, lo, le⟩
    cases ex with
    | error e => cases le <;> simp [mainC, mainCCatch]
    | ok s =>
        cases hup : (if dr then (.ok 0 : Except String Int)
            else uploadToICSource cr after "verified_inventory.csv") <;>
          cases lo <;> cases le <;> simp [mainC, mainCCatch, hup]
  · intro env e hex hlog
    rcases env with ⟨ex, up, l1, l2⟩
    cases hex
    cases hlog
    simp [mainA, mainACatch]
  · intro env e hex hlog
    rcases env with ⟨dr, ex, cr, after, lo, le⟩
    cases hex
    cases hlog
    simp [mainC, mainCCatch]
  · intro env e hex
    rcases env with ⟨dr, ex, cr, after, lr⟩
    cases hex
    simp [mainB]

/-- Witness for C2 as amended: when variant A's export throws and the catch
block's insert succeeds, exactly the zeroed `ERR` row is stored. -/
theorem C2_audit_row_amended_witness :
    (mainA { exportRes := .error "Supabase fetch error: down",
             uploadRes := .ok (100, "/"), log1Res := .ok (), log2Res := .ok () }).loggedRows
      = [⟨0, 0, 0, 0, "ERR", jsSlice200 "Supabase fetch error: down"⟩] :=
  C2_audit_row_amended.2.2.1 _ "Supabase fetch error: down" rfl rfl

/-- Counterexample to claim C5: the claim requires exit code 0 whenever an
AuditRow is produced and extraction did not throw, regardless of transfer
failure. In variant C a transfer verification failure (empty post-upload
listing) throws, the catch block stores a failure AuditRow, and the process
exits with code 1, not 0. -/
theorem C5_exit_code_counterexample :
    mainC { dryRun := false, exportRes := .ok ⟨2, 2, 9, 25⟩, connectRes := .ok (),
            after := [], logOkRes := .ok (), logErrRes := .ok () }
      = { exitCode := 1, auditAttempts := 1,
          loggedRows := [⟨none, none, none, none, false,
            "Upload appears to be missing on remote."⟩] } := rfl

/-- Claim C5 as amended: variant B exits 0 exactly when export and the audit
insert complete, regardless of transfer success or failure (its transfer step
never throws); variant C exits 0 exactly when export, the transfer (unless
dry-run), and the success-path audit insert all complete, so a thrown transfer
or transfer-verification failure exits 1; variant A exits 0 exactly when
export, the upload call, and the success-path audit insert all complete — a
verification mismatch there (remote size 0) is not thrown but captured as an
`ERR` audit row with exit code still 0, while an upload call that throws
exits 1. -/
theorem C5_exit_code_amended :
    (∀ env : EnvB, (mainB env).exitCode = 0 ↔
        (∃ s, env.exportRes = .ok s) ∧ env.logRes = .ok ()) ∧
    (∀ env : EnvC, (mainC env).exitCode = 0 ↔
        (∃ s, env.exportRes = .ok s) ∧
        (env.dryRun = true ∨
          ∃ n, uploadToICSource env.connectRes env.after "verified_inventory.csv" = .ok n) ∧
        env.logOkRes = .ok ()) ∧
    (∀ env : EnvA, (mainA env).exitCode = 0 ↔
        (∃ s, env.exportRes = .ok s) ∧ (∃ u, env.uploadRes = .ok u) ∧
        env.log1Res = .ok ()) := by
  refine ⟨?_, ?_, ?_⟩
  · intro env
    rcases env with ⟨dr, ex, cr, after, lr⟩
    cases ex <;> cases lr <;> simp [mainB]
  · intro env
    rcases env with ⟨dr, ex, cr, after, lo, le⟩
    cases ex with
    | error e => cases le <;> simp [mainC, mainCCatch]
    | ok s =>
        cases dr with
        | true => cases lo with
            | error e => cases le <;> simp [mainC, mainCCatch]
            | ok u => cases le <;> simp [mainC, mainCCatch]
        | false =>
            cases hup : uploadToICSource cr after "verified_inventory.csv" with
            | error e => cases le <;> simp [mainC, mainCCatch, hup]
            | ok n =>
                cases lo with
                | error e => cases le <;> simp [mainC, mainCCatch, hup]
                | ok u => cases le <;> simp [mainC, mainCCatch, hup]
  · intro env
    rcases env with ⟨ex, up, l1, l2⟩
    cases ex <;> cases up <;> cases l1 <;> cases l2 <;> simp [mainA, mainACatch]

/-- Witness for C5 as amended: a dry run whose export and audit insert succeed
exits with code 0. -/
theorem C5_exit_code_amended_witness :
    (mainB { dryRun := true, exportRes := .ok ⟨2, 2, 9, 25⟩, connectRes := .ok (),
             after := [], logRes := .ok () }).exitCode = 0 :=
  (C5_exit_code_amended.1 _).mpr ⟨⟨⟨2, 2, 9, 25⟩, rfl⟩, rfl⟩

/-- Counterexample to claim C9: the claim allows at most one audit append per
run. In variant A, when the success-path `insertLog` throws, the catch block
attempts a second `insertLog` with zeroed statistics: two audit appends in one
run. -/
theorem C9_audit_retry_counterexample :
    (mainA { exportRes := .ok ⟨2, 2, 9⟩, uploadRes := .ok (100, "/"),
             log1Res := .error "Supabase log insert failed: duplicate key",
             log2Res := .ok () }).auditAttempts = 2 := rfl

/-- Claim C9 as amended: a failure of the catch-path audit append is caught,
reported to the console, and swallowed — the run still terminates normally
with its exit code, and that append is never retried — but a failure of the
success-path audit append is retried once from the catch block with a zeroed
(variant A) or null (variant C) payload: variants A and C attempt at most two
audit appends per run, with exactly two precisely when the run reached the
success-path append and that append threw — in variant A when export
completed and the upload call returned (even if verification reported size
0), in variant C when export completed and the transfer step succeeded or was
skipped by dry-run. -/
theorem C9_audit_retry_amended :
    (∀ env : EnvA, (mainA env).auditAttempts ≤ 2) ∧
    (∀ env : EnvC, (mainC env).auditAttempts ≤ 2) ∧
    (∀ env : EnvA, (mainA env).auditAttempts = 2 ↔
        (∃ s, env.exportRes = .ok s) ∧ (∃ u, env.uploadRes = .ok u) ∧
        (∃ e, env.log1Res = .error e)) ∧
    (∀ env : EnvC, (mainC env).auditAttempts = 2 ↔
        (∃ s, env.exportRes = .ok s) ∧
        (env.dryRun = true ∨
          ∃ n, uploadToICSource env.connectRes env.after "verified_inventory.csv" = .ok n) ∧
        (∃ e, env.logOkRes = .error e)) ∧
    (∀ (env : EnvA) (e e2 : String), env.exportRes = .error e → env.log2Res = .error e2 →
        mainA env = { exitCode := 1, auditAttempts := 1, loggedRows := [] }) := by
  refine ⟨?_, ?_, ?_, ?_, ?_⟩
  · intro env
    rcases env with ⟨ex, up, l1, l2⟩
    cases ex <;> cases up <;> cases l1 <;> cases l2 <;> simp [mainA, mainACatch]
  · intro env
    rcases env with ⟨dr, ex, cr, after, lo, le⟩
    cases ex with
    | error e => cases le <;> simp [mainC, mainCCatch]
    | ok s =>
        cases hup : (if dr then (.ok 0 : Except String Int)
            else uploadToICSource cr after "verified_inventory.csv") <;>
          cases lo <;> cases le <;> simp [mainC, mainCCatch, hup]
  · intro env
    rcases env with ⟨ex, up, l1, l2⟩
    cases ex <;> cases up <;> cases l1 <;> cases l2 <;> simp [mainA, mainACatch]
  · intro env
    rcases env with ⟨dr, ex, cr, after, lo, le⟩
    cases ex with
    | error e => cases le <;> simp [mainC, mainCCatch]
    | ok s =>
        cases dr with
        | true => cases lo with
            | error e => cases le <;> simp [mainC, mainCCatch]
            | ok u => cases le <;> simp [mainC, mainCCatch]
        | false =>
            cases hup : uploadToICSource cr after "verified_inventory.csv" with
            | error e => cases le <;> simp [mainC, mainCCatch, hup]
            | ok n =>
                cases lo with
                | error e => cases le <;> simp [mainC, mainCCatch, hup]
                | ok u => cases le <;> simp [mainC, mainCCatch, hup]
  · intro env e e2 hex hlog
    rcases env with ⟨ex, up, l1, l2⟩
    cases hex
    cases hlog
    simp [mainA, mainACatch]

/-- Witness for C9 as amended: when export throws and the catch-path insert
also throws, the run still ends with exit code 1, one attempt, and no stored
row — the second failure is swallowed, not retried. -/
theorem C9_audit_retry_amended_witness :
    mainA { exportRes := .error "boom", uploadRes := .ok (0, "/"),
            log1Res := .ok (), log2Res := .error "insert refused" }
      = { exitCode := 1, auditAttempts := 1, loggedRows := [] } :=
  C9_audit_retry_amended.2.2.2.2 _ "boom" "insert refused" rfl rfl

end ICSourceExport
